import Mathlib

/-!
Verification of the FHIR terminology-server backup script (`backup.py`).

The script enumerates every resource of configured FHIR types by walking
paginated search bundles, downloads each resource to a date-stamped output
tree, optionally archives the day's output, and prunes output directories
older than a retention threshold.

This file shallowly embeds the script: JSON documents become an inductive
type, HTTP GET becomes a function `String → Except String Json` (an
`Except.error` models a raised exception such as the `ValueError` thrown on
a non-200 status), and the filesystem becomes explicit state threaded
through the functions.  Python exceptions are modelled with `Except`:
a function that can raise returns `Except String α` and an uncaught
exception propagates through `bind`.
-/

namespace TsBackup

/-- A JSON document, as produced by `response.json()` in the script. -/
inductive Json where
  | null : Json
  | bool (b : Bool) : Json
  | num (n : Int) : Json
  | str (s : String) : Json
  | arr (elems : List Json) : Json
  | obj (fields : List (String × Json)) : Json

/-- Python `d[k]` on a JSON value: a `KeyError` when the key is absent and a
`TypeError` when the value is not a dict, both modelled as errors. -/
def Json.getItem (j : Json) (k : String) : Except String Json :=
  match j with
  | Json.obj fields =>
    match fields.lookup k with
    | some v => Except.ok v
    | none => Except.error ("KeyError: " ++ k)
  | _ => Except.error "TypeError: not a dict"

/-- The fields of a JSON object; iterating or key-testing a non-dict raises. -/
def Json.asObj (j : Json) : Except String (List (String × Json)) :=
  match j with
  | Json.obj fields => Except.ok fields
  | _ => Except.error "TypeError: not a dict"

/-- The elements of a JSON array; iterating a non-list raises. -/
def Json.asArr (j : Json) : Except String (List Json) :=
  match j with
  | Json.arr elems => Except.ok elems
  | _ => Except.error "TypeError: not a list"

/-- Read a JSON value expected to be a string (the script's type hints). -/
def Json.asStr (j : Json) : Except String String :=
  match j with
  | Json.str s => Except.ok s
  | _ => Except.error "TypeError: not a str"

/-- Python `v == "lit"` for a JSON value `v`: true exactly on that string. -/
def Json.eqStr (j : Json) (s : String) : Bool :=
  match j with
  | Json.str t => t = s
  | _ => false

/-- `BundleResponse` dataclass: one entry of a search bundle.  `title` and
`version` are read with `.get(..., None)`, so they are optional. -/
structure BundleResponse where
  resource_id : String
  title : Option String
  canonical_url : String
  url : String
  version : Option String
deriving DecidableEq, Repr

/-- `filterM` specialised to `Except`, evaluating the predicate left to
right and propagating the first raised exception, as a Python list
comprehension with a condition does. -/
def filterE (p : α → Except String Bool) : List α → Except String (List α)
  | [] => Except.ok []
  | a :: rest => do
    let keep ← p a
    let rest' ← filterE p rest
    if keep then Except.ok (a :: rest') else Except.ok rest'

/-- `mapM` specialised to `Except`: a Python for-loop that appends one
parsed element per iteration and propagates the first raised exception. -/
def mapE (f : α → Except String β) : List α → Except String (List β)
  | [] => Except.ok []
  | a :: rest => do
    let b ← f a
    let rest' ← mapE f rest
    Except.ok (b :: rest')

/-- `bundle_json_get_next_link`: collect the links whose `relation` is
`next`; return the first one's `url`, or the empty string if none.
Indexing `bundle_json["link"]` raises when the key is absent. -/
def bundle_json_get_next_link (bundle_json : Json) : Except String String := do
  let links ← (← bundle_json.getItem "link").asArr
  let filtered_link ← filterE (fun link => do
      let rel ← link.getItem "relation"
      Except.ok (rel.eqStr "next")) links
  match filtered_link with
  | [] => Except.ok ""
  | l :: _ => (← l.getItem "url").asStr

/-- Parse one `entry` of a search bundle into a `BundleResponse`.  The
fields `fullUrl`, `resource.url`, `resource.id` are required (a `KeyError`
propagates); `resource.name` and `resource.version` are read with
`.get(..., None)`. -/
def parseEntry (entry : Json) : Except String BundleResponse := do
  let url ← (← entry.getItem "fullUrl").asStr
  let resource ← entry.getItem "resource"
  let rfields ← resource.asObj
  let title ← match rfields.lookup "name" with
    | none => Except.ok (none : Option String)
    | some v => do Except.ok (some (← v.asStr))
  let canonical_url ← (← resource.getItem "url").asStr
  let version ← match rfields.lookup "version" with
    | none => Except.ok (none : Option String)
    | some v => do Except.ok (some (← v.asStr))
  let resource_id ← (← resource.getItem "id").asStr
  Except.ok ⟨resource_id, title, canonical_url, url, version⟩

/-- `bundle_json_to_bundle_response_list`: if the bundle has no `entry`
key it contributes no responses; otherwise every entry is parsed. -/
def bundle_json_to_bundle_response_list (bundle_json : Json) :
    Except String (List BundleResponse) := do
  let fields ← bundle_json.asObj
  match fields.lookup "entry" with
  | none => Except.ok []
  | some entries => do
    let entryList ← entries.asArr
    mapE parseEntry entryList

/-- The `while next_link` loop of `get_resource_urls_from_server`.  The
server (i.e. `perform_request_as_json`) is a function from URL to JSON
document or raised error.  `fuel` bounds the number of iterations so the
function is total; every claim is about finite page chains, where enough
fuel exists. -/
def walkPages (server : String → Except String Json) :
    Nat → String → Except String (List BundleResponse)
  | 0, _ => Except.error "fuel exhausted"
  | Nat.succ fuel, next_link =>
    if next_link = "" then Except.ok []
    else do
      let bundle_json ← server next_link
      let page_responses ← bundle_json_to_bundle_response_list bundle_json
      let next ← bundle_json_get_next_link bundle_json
      let rest ← walkPages server fuel next
      Except.ok (page_responses ++ rest)

/-- `get_resource_urls_from_server`: start the walk at
`{fhir_endpoint}/{resource_type}`. -/
def get_resource_urls_from_server (server : String → Except String Json)
    (fuel : Nat) (fhir_endpoint : String) (resource_type : String) :
    Except String (List BundleResponse) :=
  walkPages server fuel (fhir_endpoint ++ "/" ++ resource_type)

/-! ### A synthetic paged catalog

To state pagination claims we build, from a list of per-page descriptor
lists, a concrete server serving a cursor-linked chain of bundles.  Page
`i` is served at `base ++ i` copies of `'a'`, so the starting URL `base`
serves page 0 and the cursor of page `i` points at page `i + 1`; the last
page carries no `next` link. -/

/-- Serialise a `BundleResponse` back into a bundle `entry`; the optional
fields are present exactly when the descriptor has them. -/
def entryJson (r : BundleResponse) : Json :=
  Json.obj
    [("fullUrl", Json.str r.url),
     ("resource", Json.obj
       ((match r.title with
         | some t => [("name", Json.str t)]
         | none => []) ++
        [("url", Json.str r.canonical_url)] ++
        (match r.version with
         | some v => [("version", Json.str v)]
         | none => []) ++
        [("id", Json.str r.resource_id)]))]

/-- A listing page holding the given entries; when `next` is nonempty the
page carries a `next` link to it, otherwise the link list has no `next`. -/
def mkPage (rs : List BundleResponse) (next : String) : Json :=
  Json.obj
    [("link", Json.arr
       (if next = "" then []
        else [Json.obj [("relation", Json.str "next"), ("url", Json.str next)]])),
     ("entry", Json.arr (rs.map entryJson))]

/-- The URL of page `i` of the synthetic chain rooted at `base`. -/
def pageUrl (base : String) (i : Nat) : String :=
  base ++ String.mk (List.replicate i 'a')

/-- The synthetic server: decodes the page index from the URL length and
serves that page with a cursor to the next one, or a 404 error beyond the
last page. -/
def chainServer (base : String) (qs : List (List BundleResponse))
    (url : String) : Except String Json :=
  let i := url.length - base.length
  if i < qs.length then
    Except.ok (mkPage (qs.getD i [])
      (if i + 1 < qs.length then pageUrl base (i + 1) else ""))
  else Except.error ("HTTP Error 404 getting from " ++ url)

/-! ### `slugify`

`slugify(value)` with `allow_unicode=False`: NFKD-normalise, encode to
ASCII ignoring unencodable characters, lowercase, drop characters that are
not word characters, whitespace or hyphens, collapse runs of
whitespace/hyphen into a single hyphen, and strip leading/trailing hyphens
and underscores.  The NFKD normalisation table is not reimplemented: it is
an arbitrary parameter `nfkd`, since every property proved here holds for
any normalisation (the subsequent ASCII filter is what guarantees
safety). -/

/-- Python `\s` on ASCII text. -/
def pyIsSpace (c : Char) : Bool :=
  c == ' ' || c == '\t' || c == '\n' || c == '\r' || c == '\x0b' || c == '\x0c'

/-- Python `\w` on ASCII text: alphanumeric or underscore. -/
def isWordChar (c : Char) : Bool :=
  c.isAlpha || c.isDigit || c == '_'

/-- `.encode('ascii', 'ignore').decode('ascii')`: keep only ASCII. -/
def ascii_ignore (s : String) : String :=
  String.mk (s.data.filter (fun c => c.toNat < 128))

/-- `.lower()` on ASCII text. -/
def py_lower (s : String) : String :=
  String.mk (s.data.map Char.toLower)

/-- The character class `[-\s]` of the second substitution. -/
def isDashSpace (c : Char) : Bool :=
  c == '-' || pyIsSpace c

/-- `re.sub(r'[-\s]+', '-', ...)`: replace each maximal run of hyphens and
whitespace by a single hyphen.  The flag records whether the previous
character belonged to such a run (so the run emits only one hyphen). -/
def collapseAux : Bool → List Char → List Char
  | _, [] => []
  | inRun, c :: rest =>
    if isDashSpace c then
      if inRun then collapseAux true rest
      else '-' :: collapseAux true rest
    else c :: collapseAux false rest

/-- `re.sub(r'[-\s]+', '-', ...)`. -/
def collapseDashRuns (l : List Char) : List Char :=
  collapseAux false l

/-- The set stripped from both ends by `.strip('-_')`. -/
def isStripSet (c : Char) : Bool :=
  c == '-' || c == '_'

/-- Python `str.strip(chars)`: drop characters of the set from the front
and from the back. -/
def stripChars (p : Char → Bool) (l : List Char) : List Char :=
  ((l.dropWhile p).reverse.dropWhile p).reverse

/-- `slugify` (the `allow_unicode=False` path used by the script). -/
def slugify (nfkd : String → String) (value : String) : String :=
  let v1 := ascii_ignore (nfkd value)
  let v2 := (py_lower v1).data.filter (fun c => isWordChar c || pyIsSpace c || c == '-')
  String.mk (stripChars isStripSet (collapseDashRuns v2))

/-! ### Download-and-persist phase

The filesystem is explicit state: the set of created directories and the
written files (path with JSON content, most recent write first).  Path
strings are opaque; `path.abspath` is the identity in this model. -/

structure FS where
  dirs : List String
  files : List (String × Json)

/-- `str(title)` as interpolated into the target filename: Python renders
the `None` of a missing title as the string `None`. -/
def titleStr : Option String → String
  | some t => t
  | none => "None"

/-- `download_resource`: GET the descriptor's URL and write the body,
pretty-printed, to `out_dir/slugify(f"{type}-{id}_{title}_{today}").json`,
returning the target path.  A raised transport error propagates. -/
def download_resource (fetch : String → Except String Json)
    (nfkd : String → String) (today : String) (resource_type : String)
    (r : BundleResponse) (out_dir : String) (fs : FS) :
    Except String (FS × String) := do
  let rx ← fetch r.url
  let target_filename :=
    resource_type ++ "-" ++ r.resource_id ++ "_" ++ titleStr r.title ++ "_" ++ today
  let target_abspath := out_dir ++ "/" ++ slugify nfkd target_filename ++ ".json"
  Except.ok ({ fs with files := (target_abspath, rx) :: fs.files }, target_abspath)

/-- `download_resource_to_file`: download, then log the mapping; the
logging does not change the observable state. -/
def download_resource_to_file (fetch : String → Except String Json)
    (nfkd : String → String) (today : String) (resource_type : String)
    (r : BundleResponse) (out_dir : String) (fs : FS) :
    Except String (FS × String) :=
  download_resource fetch nfkd today resource_type r out_dir fs

/-- The `args.parallel == 1` branch: a for-loop downloading one descriptor
after the other.  An uncaught exception aborts the loop, leaving the files
already written and discarding the remaining descriptors. -/
def download_loop_sequential (fetch : String → Except String Json)
    (nfkd : String → String) (today : String) (resource_type : String)
    (out_dir : String) (rs : List BundleResponse) (fs : FS) : FS × Option String :=
  match rs with
  | [] => (fs, none)
  | r :: rest =>
    match download_resource_to_file fetch nfkd today resource_type r out_dir fs with
    | Except.error e => (fs, some e)
    | Except.ok (fs2, _) =>
      download_loop_sequential fetch nfkd today resource_type out_dir rest fs2

/-- The `args.parallel > 1` branch: a list comprehension of
`pool.apply(download_resource_to_file, ...)`.  `Pool.apply` blocks until
its single task completes, so the tasks execute one at a time in
submission order; the comprehension collects the returned paths.  An
exception raised by a task re-raises in the parent at that `apply` call,
aborting the comprehension. -/
def download_loop_pool (fetch : String → Except String Json)
    (nfkd : String → String) (today : String) (resource_type : String)
    (out_dir : String) (rs : List BundleResponse) (fs : FS) :
    (FS × Option String) × List String :=
  match rs with
  | [] => ((fs, none), [])
  | r :: rest =>
    match download_resource_to_file fetch nfkd today resource_type r out_dir fs with
    | Except.error e => ((fs, some e), [])
    | Except.ok (fs2, fn) =>
      let res := download_loop_pool fetch nfkd today resource_type out_dir rest fs2
      (res.1, fn :: res.2)

/-- `makedirs` guarded by `path.isdir`: create the directory if absent. -/
def makedirs (fs : FS) (d : String) : FS :=
  if d ∈ fs.dirs then fs else { fs with dirs := d :: fs.dirs }

/-- `download_all_resource_types`: for each configured type, walk the
paged listing; a type with zero resources is skipped (`continue`) without
touching the output tree; otherwise the per-type directory is created and
the descriptors are downloaded by the branch selected on `parallel`.  An
uncaught exception (walk failure or fetch failure) aborts the whole run. -/
def download_all_resource_types (server fetch : String → Except String Json)
    (nfkd : String → String) (fuel : Nat) (endpoint : String)
    (out_dir today : String) (parallel : Nat)
    (resource_types : List String) (fs : FS) : FS × Option String :=
  match resource_types with
  | [] => (fs, none)
  | resource_type :: rest =>
    match get_resource_urls_from_server server fuel endpoint resource_type with
    | Except.error e => (fs, some e)
    | Except.ok resource_list =>
      if resource_list.length = 0 then
        download_all_resource_types server fetch nfkd fuel endpoint
          out_dir today parallel rest fs
      else
        let type_out_dir := out_dir ++ "/" ++ today ++ "/" ++ resource_type
        let fs1 := makedirs fs type_out_dir
        let step :=
          if parallel = 1 then
            download_loop_sequential fetch nfkd today resource_type
              type_out_dir resource_list fs1
          else
            (download_loop_pool fetch nfkd today resource_type
              type_out_dir resource_list fs1).1
        match step.2 with
        | some e => (step.1, some e)
        | none =>
          download_all_resource_types server fetch nfkd fuel endpoint
            out_dir today parallel rest step.1

/-! ### Archiver (`create_tarball`) -/

/-- Python string comparison: lexicographic on the code points. -/
def charlist_le : List Char → List Char → Bool
  | [], _ => true
  | _ :: _, [] => false
  | c :: cs, d :: ds => if c < d then true else if d < c then false else charlist_le cs ds

/-- Python `a <= b` on strings. -/
def str_le (a b : String) : Bool :=
  charlist_le a.data b.data

/-- Python `sorted` on strings (ascending lexicographic), as an insertion
sort. -/
def insert_sorted (s : String) : List String → List String
  | [] => [s]
  | t :: rest => if str_le s t then s :: t :: rest else t :: insert_sorted s rest

/-- Python `sorted`. -/
def sorted_strings : List String → List String
  | [] => []
  | s :: rest => insert_sorted s (sorted_strings rest)

/-- `os.path.basename`: the part after the last slash. -/
def basename (s : String) : String :=
  String.mk ((s.data.reverse.takeWhile (fun c => c != '/')).reverse)

/-- The result of `create_tarball` when the flag is on: the archive path,
its members as (source path, internal archive name) pairs, and the listing
of `outputRoot/today` after the archive file itself has been created. -/
structure TarResult where
  tar_path : String
  members : List (String × String)
  new_listing : List String

/-- `create_tarball`: a no-op unless `--tarball` was given; otherwise add
every entry of `outputRoot/today` except the archive file itself (matched
by name) to `outputRoot/today/today.tar.gz`, each under the internal name
`today/<basename>`.  Nothing is deleted: the archive file is the only new
entry. -/
def create_tarball (tarball : Bool) (out_dir today : String)
    (listing : List String) : Option TarResult :=
  if tarball = false then none
  else
    let output_path := out_dir ++ "/" ++ today
    let tar_filename := today ++ ".tar.gz"
    let tar_path := output_path ++ "/" ++ tar_filename
    let file_list := sorted_strings
      (((listing.filter (fun f => f ≠ tar_filename)).map
        (fun f => output_path ++ "/" ++ f)))
    some
      { tar_path := tar_path
        members := file_list.map (fun f => (f, today ++ "/" ++ basename f))
        new_listing :=
          if tar_filename ∈ listing then listing else listing ++ [tar_filename] }

/-! ### Calendar dates and the retention pruner

`datetime.date` is embedded as a year-month-day triple with the proleptic
Gregorian ordinal arithmetic CPython uses for `date - timedelta(days=k)`,
and `date.fromisoformat` as the strict `YYYY-MM-DD` parser. -/

structure PyDate where
  year : Nat
  month : Nat
  day : Nat
deriving DecidableEq, Repr

def is_leap (y : Nat) : Bool :=
  y % 4 == 0 && (y % 100 != 0 || y % 400 == 0)

def days_in_month (y m : Nat) : Nat :=
  if m = 2 then (if is_leap y then 29 else 28)
  else if m = 4 || m = 6 || m = 9 || m = 11 then 30
  else 31

def days_before_month (y m : Nat) : Nat :=
  (List.range (m - 1)).foldl (fun acc i => acc + days_in_month y (i + 1)) 0

def days_before_year (y : Nat) : Nat :=
  (y - 1) * 365 + (y - 1) / 4 - (y - 1) / 100 + (y - 1) / 400

/-- `date.toordinal()`: day 1 is 0001-01-01. -/
def toordinal (d : PyDate) : Nat :=
  days_before_year d.year + days_before_month d.year d.month + d.day

/-- `date.fromordinal` (CPython `_ord2ymd`). -/
def fromordinal (n0 : Nat) : PyDate :=
  let n := n0 - 1
  let n400 := n / 146097
  let n1r := n % 146097
  let n100 := n1r / 36524
  let n2r := n1r % 36524
  let n4 := n2r / 1461
  let n3r := n2r % 1461
  let nyr := n3r / 365
  let nd := n3r % 365
  let year := n400 * 400 + 1 + n100 * 100 + n4 * 4 + nyr
  if nyr = 4 || n100 = 4 then
    ⟨year - 1, 12, 31⟩
  else
    let month := (nd + 50) / 32
    let preceding := days_before_month year month
    if preceding > nd then
      ⟨year, month - 1, nd - days_before_month year (month - 1) + 1⟩
    else
      ⟨year, month, nd - preceding + 1⟩

def charDigit (c : Char) : Nat := c.toNat - 48

/-- `date.fromisoformat`: exactly `YYYY-MM-DD`, validated. -/
def fromisoformat (s : String) : Option PyDate :=
  match s.data with
  | [y1, y2, y3, y4, h1, m1, m2, h2, d1, d2] =>
    if (y1.isDigit && y2.isDigit && y3.isDigit && y4.isDigit &&
        h1 == '-' && m1.isDigit && m2.isDigit &&
        h2 == '-' && d1.isDigit && d2.isDigit) = true then
      let y := charDigit y1 * 1000 + charDigit y2 * 100 + charDigit y3 * 10 + charDigit y4
      let m := charDigit m1 * 10 + charDigit m2
      let d := charDigit d1 * 10 + charDigit d2
      if 1 ≤ y && 1 ≤ m && m ≤ 12 && 1 ≤ d && d ≤ days_in_month y m then
        some ⟨y, m, d⟩
      else none
    else none
  | _ => none

/-- Python `date.__le__`: comparison of the (year, month, day) triples. -/
def date_le (a b : PyDate) : Bool :=
  decide (a.year < b.year ∨ (a.year = b.year ∧
    (a.month < b.month ∨ (a.month = b.month ∧ a.day ≤ b.day))))

/-- `today - timedelta(days=k)` via the ordinal. -/
def date_sub_days (d : PyDate) (k : Nat) : PyDate :=
  fromordinal (toordinal d - k)

/-- The outcome of `remove_old_directories`: the deletion candidates in
the order they are attempted, those actually removed, and those whose
`PermissionError` was caught and reported. -/
structure PruneOutcome where
  attempted : List String
  deleted : List String
  failures : List String
deriving DecidableEq, Repr

/-- The list comprehension
`[fn for fn in folder_names if date.fromisoformat(fn) <= cutoff_date]`:
evaluated left to right, raising `ValueError` at the first name that is
not an ISO date. -/
def filter_le_cutoff (cutoff : PyDate) : List String → Except String (List String)
  | [] => Except.ok []
  | fn :: rest =>
    match fromisoformat fn with
    | none => Except.error ("ValueError: Invalid isoformat string: " ++ fn)
    | some d => do
      let rest2 ← filter_le_cutoff cutoff rest
      if date_le d cutoff then Except.ok (fn :: rest2) else Except.ok rest2

/-- The deletion loop: one `shutil.rmtree` per candidate inside a
`try/except PermissionError`, so a failure is reported and the loop
continues.  `can_delete` abstracts whether the filesystem permits the
removal of a candidate. -/
def delete_loop (can_delete : String → Bool) : List String → List String × List String
  | [] => ([], [])
  | fn :: rest =>
    let res := delete_loop can_delete rest
    if can_delete fn then (fn :: res.1, res.2) else (res.1, fn :: res.2)

/-- `remove_old_directories`: a no-op when `delete_days <= 0`; otherwise
sort the listing of the output root, compute
`cutoff = today - timedelta(days=delete_days)`, select the directories
whose name parses to a date `<= cutoff` (an unparseable name raises an
uncaught `ValueError`, modelled as the error case), and delete each
candidate, isolating permission failures. -/
def remove_old_directories (delete_days : Int) (out_dir_listing : List String)
    (today : PyDate) (can_delete : String → Bool) : Except String PruneOutcome :=
  if delete_days ≤ 0 then Except.ok ⟨[], [], []⟩
  else do
    let to_delete ← filter_le_cutoff (date_sub_days today delete_days.toNat)
      (sorted_strings out_dir_listing)
    Except.ok ⟨to_delete, (delete_loop can_delete to_delete).1,
      (delete_loop can_delete to_delete).2⟩

@[simp] theorem ok_bind (a : α) (f : α → Except String β) :
    (Except.ok a : Except String α) >>= f = f a := rfl

@[simp] theorem error_bind (e : String) (f : α → Except String β) :
    (Except.error e : Except String α) >>= f = Except.error e := rfl

theorem parseEntry_entryJson (r : BundleResponse) :
    parseEntry (entryJson r) = Except.ok r := by
  obtain ⟨i, t, c, u, v⟩ := r
  cases t <;> cases v <;> rfl

theorem mapE_entryJson (l : List BundleResponse) :
    mapE parseEntry (l.map entryJson) = Except.ok l := by
  induction l with
  | nil => rfl
  | cons r rest ih =>
    simp [mapE, parseEntry_entryJson, ih]

theorem bundle_list_mkPage (rs : List BundleResponse) (next : String) :
    bundle_json_to_bundle_response_list (mkPage rs next) = Except.ok rs := by
  by_cases hn : next = "" <;>
    simp [mkPage, bundle_json_to_bundle_response_list, Json.asObj,
      List.lookup, hn, Json.asArr, mapE_entryJson rs]

theorem next_link_mkPage (rs : List BundleResponse) (next : String) :
    bundle_json_get_next_link (mkPage rs next) = Except.ok next := by
  by_cases hn : next = "" <;>
    simp [mkPage, bundle_json_get_next_link, Json.getItem, List.lookup,
      Json.asArr, filterE, Json.eqStr, hn, Json.asStr]

theorem pageUrl_length (base : String) (k : Nat) :
    (pageUrl base k).length = base.length + k := by
  simp [pageUrl]

theorem pageUrl_ne_empty (base : String) (k : Nat) (hbase : 0 < base.length) :
    pageUrl base k ≠ "" := by
  intro h
  have := pageUrl_length base k
  rw [h] at this
  simp at this
  omega

theorem walkPages_chainServer (base : String) (qs : List (List BundleResponse))
    (hbase : 0 < base.length) :
    ∀ fuel k, k < qs.length → qs.length - k < fuel →
    walkPages (chainServer base qs) fuel (pageUrl base k) =
      Except.ok ((qs.drop k).flatten) := by
  intro fuel
  induction fuel with
  | zero => intro k hk hfuel; omega
  | succ f ih =>
    intro k hk hfuel
    have hne : pageUrl base k ≠ "" := pageUrl_ne_empty base k hbase
    have hserver : chainServer base qs (pageUrl base k) =
        Except.ok (mkPage (qs.getD k [])
          (if k + 1 < qs.length then pageUrl base (k + 1) else "")) := by
      simp only [chainServer, pageUrl_length, Nat.add_sub_cancel_left]
      rw [if_pos hk]
    have hgetD : qs.getD k [] = qs[k] := by
      simp [List.getD_eq_getElem?_getD, List.getElem?_eq_getElem hk]
    rw [walkPages, if_neg hne, hserver]
    simp only [ok_bind, bundle_list_mkPage, next_link_mkPage]
    by_cases hlast : k + 1 < qs.length
    · rw [if_pos hlast, ih (k + 1) hlast (by omega)]
      simp only [ok_bind]
      rw [List.drop_eq_getElem_cons hk, List.flatten_cons, hgetD]
    · rw [if_neg hlast]
      match f, (by omega : 0 < f) with
      | Nat.succ f2, _ =>
        rw [walkPages, if_pos rfl]
        simp only [ok_bind]
        rw [List.drop_eq_getElem_cons hk, List.flatten_cons, hgetD,
          List.drop_eq_nil_of_le (by omega), List.flatten_nil]

/-! ### Lemmas about `slugify` -/

theorem uint32_le_iff_toNat {a b : UInt32} : a ≤ b ↔ a.toNat ≤ b.toNat := by
  simp [UInt32.le_def, BitVec.le_def, UInt32.toNat]

theorem toLower_isUpper_false (c : Char) : (Char.toLower c).isUpper = false := by
  unfold Char.toLower
  by_cases h : c.toNat ≥ 65 ∧ c.toNat ≤ 90
  · simp only [if_pos h]
    obtain ⟨h1, h2⟩ := h
    have hv : (c.toNat + 32).isValidChar := by
      left
      omega
    have hofnat : (Char.ofNat (c.toNat + 32)).val.toNat = c.toNat + 32 := by
      simp only [Char.ofNat, dif_pos hv]
      rfl
    simp only [Char.isUpper]
    have hle : ¬ ((Char.ofNat (c.toNat + 32)).val ≤ 90) := by
      rw [uint32_le_iff_toNat, hofnat]
      show ¬ (c.toNat + 32 ≤ (90 : UInt32).toNat)
      have : (90 : UInt32).toNat = 90 := rfl
      omega
    simp [hle]
  · simp only [if_neg h]
    simp only [Char.isUpper]
    by_cases h65 : c.val ≥ 65
    · by_cases h90 : c.val ≤ 90
      · exfalso
        apply h
        have h65b : (65 : UInt32) ≤ c.val := h65
        have h90b : c.val ≤ (90 : UInt32) := h90
        rw [uint32_le_iff_toNat] at h65b h90b
        have e65 : (65 : UInt32).toNat = 65 := rfl
        have e90 : (90 : UInt32).toNat = 90 := rfl
        rw [e65] at h65b
        rw [e90] at h90b
        exact ⟨h65b, h90b⟩
      · simp [h90]
    · simp [h65]

theorem dropWhile_head?_false {p : Char → Bool} {l : List Char} {c : Char}
    (h : (l.dropWhile p).head? = some c) : p c = false := by
  have hx := List.head?_dropWhile_not p l
  rw [h] at hx
  exact hx

theorem collapseAux_mem {c : Char} : ∀ (l : List Char) (b : Bool),
    c ∈ collapseAux b l → c = '-' ∨ (c ∈ l ∧ isDashSpace c = false) := by
  intro l
  induction l with
  | nil => intro b h; simp [collapseAux] at h
  | cons d rest ih =>
    intro b h
    rw [collapseAux] at h
    by_cases hd : isDashSpace d
    · rw [if_pos hd] at h
      cases b with
      | true =>
        rcases ih true (by simpa using h) with h3 | ⟨h4, h5⟩
        · exact Or.inl h3
        · exact Or.inr ⟨List.mem_cons_of_mem d h4, h5⟩
      | false =>
        rcases List.mem_cons.mp (by simpa using h) with h1 | h2
        · exact Or.inl h1
        · rcases ih true h2 with h3 | ⟨h4, h5⟩
          · exact Or.inl h3
          · exact Or.inr ⟨List.mem_cons_of_mem d h4, h5⟩
    · rw [if_neg hd] at h
      rcases List.mem_cons.mp h with h1 | h2
      · subst h1
        exact Or.inr ⟨List.mem_cons_self c rest, Bool.of_not_eq_true hd⟩
      · rcases ih false h2 with h3 | ⟨h4, h5⟩
        · exact Or.inl h3
        · exact Or.inr ⟨List.mem_cons_of_mem d h4, h5⟩

theorem collapseAux_true_head : ∀ (l : List Char) (c : Char),
    (collapseAux true l).head? = some c → isDashSpace c = false := by
  intro l
  induction l with
  | nil => intro c h; simp [collapseAux] at h
  | cons d rest ih =>
    intro c h
    rw [collapseAux] at h
    by_cases hd : isDashSpace d
    · rw [if_pos hd, if_pos rfl] at h
      exact ih c h
    · rw [if_neg hd] at h
      simp only [List.head?_cons, Option.some.injEq] at h
      subst h
      exact Bool.of_not_eq_true hd

theorem collapseAux_chain : ∀ (l : List Char) (b : Bool),
    List.Chain' (fun a h => ¬(a = '-' ∧ h = '-')) (collapseAux b l) := by
  intro l
  induction l with
  | nil => intro b; simp [collapseAux]
  | cons d rest ih =>
    intro b
    rw [collapseAux]
    by_cases hd : isDashSpace d
    · rw [if_pos hd]
      cases b with
      | true => exact ih true
      | false =>
        rw [if_neg (by simp)]
        rw [List.chain'_cons']
        refine ⟨?_, ih true⟩
        intro y hy
        have hyds := collapseAux_true_head rest y hy
        intro ⟨_, hy2⟩
        subst hy2
        simp [isDashSpace] at hyds
    · rw [if_neg hd]
      rw [List.chain'_cons']
      refine ⟨?_, ih false⟩
      intro y _
      intro ⟨hd2, _⟩
      subst hd2
      simp [isDashSpace] at hd

theorem collapse_mem {c : Char} (l : List Char) (h : c ∈ collapseDashRuns l) :
    c = '-' ∨ (c ∈ l ∧ isDashSpace c = false) :=
  collapseAux_mem l false h

theorem collapse_chain (l : List Char) :
    List.Chain' (fun a b => ¬(a = '-' ∧ b = '-')) (collapseDashRuns l) :=
  collapseAux_chain l false

theorem stripChars_interior (p : Char → Bool) (l : List Char) :
    stripChars p l <:+: l := by
  unfold stripChars
  have h1 : (l.dropWhile p) <:+ l := List.dropWhile_suffix p
  have h2 : ((l.dropWhile p).reverse.dropWhile p) <:+ (l.dropWhile p).reverse :=
    List.dropWhile_suffix p
  have h3 : ((l.dropWhile p).reverse.dropWhile p).reverse <+: (l.dropWhile p) := by
    apply List.reverse_suffix.mp
    rw [List.reverse_reverse]
    exact h2
  have h4 : ((l.dropWhile p).reverse.dropWhile p).reverse <:+: l.dropWhile p :=
    List.IsPrefix.isInfix h3
  have h5 : l.dropWhile p <:+: l := List.IsSuffix.isInfix h1
  exact List.IsInfix.trans h4 h5

theorem suffix_getLast? {α : Type} {l1 l2 : List α} {c : α} (h : l1 <:+ l2)
    (hc : l1.getLast? = some c) : l2.getLast? = some c := by
  obtain ⟨t, rfl⟩ := h
  rw [List.getLast?_append, hc]
  rfl

theorem stripChars_head {p : Char → Bool} {l : List Char} {c : Char}
    (h : (stripChars p l).head? = some c) : p c = false := by
  unfold stripChars at h
  rw [List.head?_reverse] at h
  have h2 : ((l.dropWhile p).reverse).getLast? = some c :=
    suffix_getLast? (List.dropWhile_suffix p) h
  rw [List.getLast?_reverse] at h2
  exact dropWhile_head?_false h2

theorem stripChars_last {p : Char → Bool} {l : List Char} {c : Char}
    (h : (stripChars p l).getLast? = some c) : p c = false := by
  unfold stripChars at h
  rw [List.getLast?_reverse] at h
  exact dropWhile_head?_false h

/-- C1: for every finite cursor-linked chain of listing pages (given by
the per-page descriptor lists `qs`, of which there is at least one page),
the page walk returns exactly the concatenation of the pages' descriptors
in page order and entry order, terminating right after the page with no
next-cursor (`qs.length` requests, one unit of fuel per page plus the
final empty-cursor check); a page with zero entries but a next-cursor
(any empty middle element of `qs`) does not terminate the walk. -/
theorem C1_page_walk_concatenation (fhir_endpoint resource_type : String)
    (qs : List (List BundleResponse)) (hqs : qs ≠ []) :
    get_resource_urls_from_server
      (chainServer (fhir_endpoint ++ "/" ++ resource_type) qs)
      (qs.length + 1) fhir_endpoint resource_type = Except.ok qs.flatten := by
  have hslash : ("/" : String).length = 1 := rfl
  have hbase : 0 < (fhir_endpoint ++ "/" ++ resource_type).length := by
    rw [String.length_append, String.length_append, hslash]
    omega
  have h0 : pageUrl (fhir_endpoint ++ "/" ++ resource_type) 0 =
      fhir_endpoint ++ "/" ++ resource_type := by
    show (fhir_endpoint ++ "/" ++ resource_type) ++ "" =
      fhir_endpoint ++ "/" ++ resource_type
    exact String.append_empty _
  have hlen : 0 < qs.length := List.length_pos.mpr hqs
  have hw := walkPages_chainServer (fhir_endpoint ++ "/" ++ resource_type) qs
    hbase (qs.length + 1) 0 hlen (by omega)
  rw [h0] at hw
  rw [get_resource_urls_from_server, hw, List.drop_zero]

/-- Witness for C1: three pages with two resources total, the middle page
empty but cursor-linked; the walk yields both descriptors, each once. -/
theorem C1_page_walk_concatenation_witness :
    ([[⟨"cs1", some "CS One", "http://canon/cs1", "http://srv/cs1", some "1.0"⟩],
      [],
      [⟨"cs2", none, "http://canon/cs2", "http://srv/cs2", none⟩]] :
        List (List BundleResponse)) ≠ [] ∧
    get_resource_urls_from_server
      (chainServer ("http://localhost:8080/fhir" ++ "/" ++ "CodeSystem")
        [[⟨"cs1", some "CS One", "http://canon/cs1", "http://srv/cs1", some "1.0"⟩],
         [],
         [⟨"cs2", none, "http://canon/cs2", "http://srv/cs2", none⟩]])
      4 "http://localhost:8080/fhir" "CodeSystem" =
      Except.ok
        [⟨"cs1", some "CS One", "http://canon/cs1", "http://srv/cs1", some "1.0"⟩,
         ⟨"cs2", none, "http://canon/cs2", "http://srv/cs2", none⟩] :=
  ⟨by decide,
   C1_page_walk_concatenation "http://localhost:8080/fhir" "CodeSystem"
     [[⟨"cs1", some "CS One", "http://canon/cs1", "http://srv/cs1", some "1.0"⟩],
      [],
      [⟨"cs2", none, "http://canon/cs2", "http://srv/cs2", none⟩]] (by decide)⟩

/-! ### Lemmas about the retention pruner -/

theorem mem_insert_sorted {a s : String} : ∀ l : List String,
    (a ∈ insert_sorted s l ↔ a = s ∨ a ∈ l) := by
  intro l
  induction l with
  | nil => simp [insert_sorted]
  | cons t rest ih =>
    rw [insert_sorted]
    by_cases h : str_le s t = true
    · rw [if_pos h]
      simp
    · rw [if_neg h]
      simp only [List.mem_cons, ih]
      tauto

theorem mem_sorted_strings (a : String) : ∀ l : List String,
    (a ∈ sorted_strings l ↔ a ∈ l) := by
  intro l
  induction l with
  | nil => simp [sorted_strings]
  | cons s rest ih =>
    rw [sorted_strings, mem_insert_sorted]
    simp only [List.mem_cons, ih]

theorem filter_le_cutoff_ok (c : PyDate) : ∀ l : List String,
    (∀ fn ∈ l, (fromisoformat fn).isSome = true) →
    ∃ td, filter_le_cutoff c l = Except.ok td ∧
      ∀ fn, fn ∈ td ↔ (fn ∈ l ∧
        ∃ d, fromisoformat fn = some d ∧ date_le d c = true) := by
  intro l
  induction l with
  | nil =>
    intro _
    exact ⟨[], rfl, by simp⟩
  | cons fn0 rest ih =>
    intro hall
    obtain ⟨d0, hd0⟩ := Option.isSome_iff_exists.mp (hall fn0 (List.mem_cons_self fn0 rest))
    obtain ⟨td, htd, hmem⟩ := ih (fun fn hfn => hall fn (List.mem_cons_of_mem fn0 hfn))
    rw [filter_le_cutoff, hd0, htd]
    by_cases hle : date_le d0 c = true
    · refine ⟨fn0 :: td, by simp [hle], ?_⟩
      intro fn
      simp only [List.mem_cons, hmem]
      constructor
      · rintro (rfl | ⟨h1, h2⟩)
        · exact ⟨Or.inl rfl, d0, hd0, hle⟩
        · exact ⟨Or.inr h1, h2⟩
      · rintro ⟨h1 | h1, h2⟩
        · exact Or.inl h1
        · exact Or.inr ⟨h1, h2⟩
    · refine ⟨td, by simp [hle], ?_⟩
      intro fn
      simp only [List.mem_cons, hmem]
      constructor
      · rintro ⟨h1, h2⟩
        exact ⟨Or.inr h1, h2⟩
      · rintro ⟨h1 | h1, h2⟩
        · exfalso
          subst h1
          obtain ⟨d, hd, hdle⟩ := h2
          rw [hd0] at hd
          cases hd
          exact hle hdle
        · exact ⟨h1, h2⟩

theorem filter_le_cutoff_error (c : PyDate) : ∀ (l : List String) (fn : String),
    fn ∈ l → fromisoformat fn = none →
    ∃ e, filter_le_cutoff c l = Except.error e := by
  intro l
  induction l with
  | nil => intro fn h; simp at h
  | cons fn0 rest ih =>
    intro fn hmem hnone
    rw [filter_le_cutoff]
    rcases List.mem_cons.mp hmem with rfl | htail
    · rw [hnone]
      exact ⟨_, rfl⟩
    · rcases hd0 : fromisoformat fn0 with _ | d0
      · exact ⟨_, rfl⟩
      · obtain ⟨e, he⟩ := ih fn htail hnone
        rw [he]
        exact ⟨e, rfl⟩

theorem delete_loop_spec (p : String → Bool) : ∀ l : List String,
    delete_loop p l = (l.filter p, l.filter (fun x => !(p x))) := by
  intro l
  induction l with
  | nil => rfl
  | cons fn rest ih =>
    rw [delete_loop, ih]
    by_cases h : p fn = true
    · simp [List.filter_cons, h]
    · rw [Bool.not_eq_true] at h
      simp [List.filter_cons, h]

/-- C4 counterexample: the claim quantifies over every directory set, but
in a listing that also contains a non-date name, the date-named directory
`2019-05-05` — far past the ten-day cutoff of today = 2026-10-12 — is not
deleted: the pruner raises an uncaught `ValueError` first, so the
deleted-iff-before-cutoff equivalence fails on such sets. -/
theorem C4_counterexample :
    (∃ d, fromisoformat "2019-05-05" = some d ∧
      date_le d (date_sub_days ⟨2026, 10, 12⟩ (10 : Int).toNat) = true) ∧
    remove_old_directories 10 ["2019-05-05", "junk"] ⟨2026, 10, 12⟩
      (fun _ => true) =
      Except.error "ValueError: Invalid isoformat string: junk" :=
  ⟨⟨⟨2019, 5, 5⟩, rfl, by decide⟩, rfl⟩

/-- C4 amended: retention pruning deletes nothing when the retention
threshold is not positive; with a positive threshold and a listing in
which every subdirectory name parses as an ISO date, a directory is
deleted exactly when its date is at or before `today - delete_days`
(inclusive cutoff), and no deletion fails. -/
theorem C4_retention_cutoff (delete_days : Int) (listing : List String)
    (today : PyDate)
    (hparse : ∀ fn ∈ listing, (fromisoformat fn).isSome = true) :
    (delete_days ≤ 0 →
      remove_old_directories delete_days listing today (fun _ => true) =
        Except.ok ⟨[], [], []⟩) ∧
    (0 < delete_days →
      ∃ out, remove_old_directories delete_days listing today (fun _ => true) =
          Except.ok out ∧
        out.failures = [] ∧
        ∀ fn, fn ∈ out.deleted ↔ (fn ∈ listing ∧
          ∃ d, fromisoformat fn = some d ∧
            date_le d (date_sub_days today delete_days.toNat) = true)) := by
  constructor
  · intro hle
    rw [remove_old_directories, if_pos hle]
  · intro hpos
    rw [remove_old_directories, if_neg (by omega)]
    have hparse2 : ∀ fn ∈ sorted_strings listing, (fromisoformat fn).isSome = true :=
      fun fn hfn => hparse fn ((mem_sorted_strings fn listing).mp hfn)
    obtain ⟨td, htd, hmem⟩ :=
      filter_le_cutoff_ok (date_sub_days today delete_days.toNat)
        (sorted_strings listing) hparse2
    rw [htd]
    simp only [ok_bind]
    rw [delete_loop_spec]
    refine ⟨_, rfl, by simp, ?_⟩
    intro fn
    simp only [List.filter_true]
    rw [hmem fn, mem_sorted_strings]

/-- Witness for C4: the retention-boundary example of the specification,
with today = 2026-10-12 and a 10-day retention: the directory dated
exactly ten days ago is deleted, the five-day-old one is kept. -/
theorem C4_retention_cutoff_witness :
    (∀ fn ∈ (["2026-10-07", "2026-10-02"] : List String),
      (fromisoformat fn).isSome = true) ∧
    ((0 : Int) < 10 →
      ∃ out, remove_old_directories 10 ["2026-10-07", "2026-10-02"]
          ⟨2026, 10, 12⟩ (fun _ => true) = Except.ok out ∧
        out.failures = [] ∧
        ∀ fn, fn ∈ out.deleted ↔ (fn ∈ (["2026-10-07", "2026-10-02"] : List String) ∧
          ∃ d, fromisoformat fn = some d ∧
            date_le d (date_sub_days ⟨2026, 10, 12⟩ (10 : Int).toNat) = true)) ∧
    remove_old_directories 10 ["2026-10-07", "2026-10-02"] ⟨2026, 10, 12⟩
        (fun _ => true) =
      Except.ok ⟨["2026-10-02"], ["2026-10-02"], []⟩ :=
  ⟨by decide,
   (C4_retention_cutoff 10 ["2026-10-07", "2026-10-02"] ⟨2026, 10, 12⟩ (by decide)).2,
   rfl⟩

/-- C5 counterexample: with retention enabled, a single non-date-named
subdirectory makes the pruner raise an uncaught `ValueError` while
building the candidate list, so the date-named directory `2020-01-01`
(well past the cutoff) is not deleted: the non-date name is not silently
ignored. -/
theorem C5_counterexample :
    remove_old_directories 10 ["2020-01-01", "not-a-date"] ⟨2026, 10, 12⟩
      (fun _ => true) =
      Except.error "ValueError: Invalid isoformat string: not-a-date" := rfl

/-- C5 amended: a non-date-named subdirectory is itself never deleted, but
its presence is not ignored: with retention enabled it raises an uncaught
`ValueError` that aborts pruning before any directory is deleted. -/
theorem C5_nondate_name_crashes_pruning (delete_days : Int)
    (listing : List String) (today : PyDate) (can_delete : String → Bool)
    (hpos : 0 < delete_days)
    (hbad : ∃ fn ∈ listing, fromisoformat fn = none) :
    ∃ e, remove_old_directories delete_days listing today can_delete =
      Except.error e := by
  obtain ⟨fn, hfn, hnone⟩ := hbad
  rw [remove_old_directories, if_neg (by omega)]
  obtain ⟨e, he⟩ := filter_le_cutoff_error
    (date_sub_days today delete_days.toNat) (sorted_strings listing) fn
    ((mem_sorted_strings fn listing).mpr hfn) hnone
  rw [he]
  exact ⟨e, rfl⟩

/-- Witness for the amended C5. -/
theorem C5_nondate_name_crashes_pruning_witness :
    (0 : Int) < 10 ∧
    (∃ fn ∈ (["2020-01-01", "not-a-date"] : List String),
      fromisoformat fn = none) ∧
    ∃ e, remove_old_directories 10 ["2020-01-01", "not-a-date"] ⟨2026, 10, 12⟩
      (fun _ => true) = Except.error e :=
  ⟨by decide, ⟨"not-a-date", by decide, by decide⟩,
   C5_nondate_name_crashes_pruning 10 ["2020-01-01", "not-a-date"]
     ⟨2026, 10, 12⟩ (fun _ => true) (by decide)
     ⟨"not-a-date", by decide, by decide⟩⟩

/-- C6: with retention enabled and date-named directories, the pruner
never fails as a whole: every deletion candidate is attempted no matter
how many earlier candidates hit a permission error; the deleted and the
reported-failed candidates partition the attempts exactly by the
filesystem's permission verdict. -/
theorem C6_permission_failure_isolation (delete_days : Int)
    (listing : List String) (today : PyDate) (can_delete : String → Bool)
    (hpos : 0 < delete_days)
    (hparse : ∀ fn ∈ listing, (fromisoformat fn).isSome = true) :
    ∃ out, remove_old_directories delete_days listing today can_delete =
        Except.ok out ∧
      (∀ fn, fn ∈ out.attempted ↔ (fn ∈ listing ∧
        ∃ d, fromisoformat fn = some d ∧
          date_le d (date_sub_days today delete_days.toNat) = true)) ∧
      out.deleted = out.attempted.filter can_delete ∧
      out.failures = out.attempted.filter (fun fn => !(can_delete fn)) ∧
      ∀ fn ∈ out.attempted, fn ∈ out.deleted ∨ fn ∈ out.failures := by
  rw [remove_old_directories, if_neg (by omega)]
  have hparse2 : ∀ fn ∈ sorted_strings listing, (fromisoformat fn).isSome = true :=
    fun fn hfn => hparse fn ((mem_sorted_strings fn listing).mp hfn)
  obtain ⟨td, htd, hmem⟩ :=
    filter_le_cutoff_ok (date_sub_days today delete_days.toNat)
      (sorted_strings listing) hparse2
  rw [htd]
  simp only [ok_bind]
  rw [delete_loop_spec]
  refine ⟨_, rfl, ?_, rfl, rfl, ?_⟩
  · intro fn
    rw [hmem fn, mem_sorted_strings]
  · intro fn hfn
    by_cases h : can_delete fn = true
    · exact Or.inl (List.mem_filter.mpr ⟨hfn, h⟩)
    · refine Or.inr (List.mem_filter.mpr ⟨hfn, ?_⟩)
      rw [Bool.not_eq_true] at h
      rw [h]
      rfl

/-- Witness for C6: two overdue directories; the permission check denies
the first (in sorted order) and allows the second; both are attempted,
the second is deleted, the first is reported. -/
theorem C6_permission_failure_isolation_witness :
    (0 : Int) < 10 ∧
    (∀ fn ∈ (["2026-09-02", "2026-09-01"] : List String),
      (fromisoformat fn).isSome = true) ∧
    (∃ out, remove_old_directories 10 ["2026-09-02", "2026-09-01"]
        ⟨2026, 10, 12⟩ (fun fn => fn != "2026-09-01") = Except.ok out ∧
      (∀ fn, fn ∈ out.attempted ↔ (fn ∈ (["2026-09-02", "2026-09-01"] : List String) ∧
        ∃ d, fromisoformat fn = some d ∧
          date_le d (date_sub_days ⟨2026, 10, 12⟩ (10 : Int).toNat) = true)) ∧
      out.deleted = out.attempted.filter (fun fn => fn != "2026-09-01") ∧
      out.failures = out.attempted.filter (fun fn => !(fn != "2026-09-01")) ∧
      ∀ fn ∈ out.attempted, fn ∈ out.deleted ∨ fn ∈ out.failures) ∧
    remove_old_directories 10 ["2026-09-02", "2026-09-01"] ⟨2026, 10, 12⟩
        (fun fn => fn != "2026-09-01") =
      Except.ok ⟨["2026-09-01", "2026-09-02"], ["2026-09-02"], ["2026-09-01"]⟩ :=
  ⟨by decide, by decide,
   C6_permission_failure_isolation 10 ["2026-09-02", "2026-09-01"]
     ⟨2026, 10, 12⟩ (fun fn => fn != "2026-09-01") (by decide) (by decide),
   rfl⟩

/-- C2 (evaluation of the defect): with five descriptors whose third
fetch raises a transport error, the sequential fetch loop aborts at the
third descriptor: exactly the first two files are persisted, the
exception propagates out of the loop, and the remaining descriptors are
never fetched — not the four-files-and-one-recorded-failure behavior the
specification requires. -/
theorem C2_fetch_aborts_on_transport_error :
    download_loop_sequential
      (fun u => if u = "http://srv/r3"
        then Except.error "HTTP Error 500 getting from http://srv/r3"
        else Except.ok (Json.obj []))
      id "2026-10-12" "CodeSystem" "/out/2026-10-12/CodeSystem"
      [⟨"r1", some "Res r1", "http://canon/r1", "http://srv/r1", some "1"⟩,
       ⟨"r2", some "Res r2", "http://canon/r2", "http://srv/r2", some "1"⟩,
       ⟨"r3", some "Res r3", "http://canon/r3", "http://srv/r3", some "1"⟩,
       ⟨"r4", some "Res r4", "http://canon/r4", "http://srv/r4", some "1"⟩,
       ⟨"r5", some "Res r5", "http://canon/r5", "http://srv/r5", some "1"⟩]
      ⟨[], []⟩ =
    (⟨[], [("/out/2026-10-12/CodeSystem/codesystem-r2_res-r2_2026-10-12.json", Json.obj []),
           ("/out/2026-10-12/CodeSystem/codesystem-r1_res-r1_2026-10-12.json", Json.obj [])]⟩,
     some "HTTP Error 500 getting from http://srv/r3") := rfl

/-- C3 counterexample: a listing page with no `link` collection does not
make the walk terminate normally with zero descriptors; the unguarded
`bundle_json["link"]` raises a `KeyError` that crashes the walk. -/
theorem C3_counterexample :
    walkPages (fun _ => Except.ok (Json.obj [("resourceType", Json.str "Bundle")]))
      2 "http://localhost:8080/fhir/CodeSystem" =
      Except.error "KeyError: link" := rfl

/-- C3 amended: a page missing the `entry` list is indeed treated as
contributing zero descriptors without crashing, but a page missing the
`link` collection raises a `KeyError` that aborts the walk instead of
terminating it normally. -/
theorem C3_missing_structural_fields (fields : List (String × Json))
    (hnoentry : fields.lookup "entry" = none)
    (hnolink : fields.lookup "link" = none) :
    bundle_json_to_bundle_response_list (Json.obj fields) = Except.ok [] ∧
    bundle_json_get_next_link (Json.obj fields) = Except.error "KeyError: link" := by
  constructor
  · simp [bundle_json_to_bundle_response_list, Json.asObj, hnoentry]
  · simp [bundle_json_get_next_link, Json.getItem, hnolink]

/-- Witness for the amended C3 on a concrete pathological page. -/
theorem C3_missing_structural_fields_witness :
    (([("resourceType", Json.str "Bundle")] : List (String × Json)).lookup "entry"
        = none) ∧
    (([("resourceType", Json.str "Bundle")] : List (String × Json)).lookup "link"
        = none) ∧
    (bundle_json_to_bundle_response_list
        (Json.obj [("resourceType", Json.str "Bundle")]) = Except.ok [] ∧
     bundle_json_get_next_link
        (Json.obj [("resourceType", Json.str "Bundle")]) =
          Except.error "KeyError: link") :=
  ⟨rfl, rfl, C3_missing_structural_fields [("resourceType", Json.str "Bundle")] rfl rfl⟩

/-! ### Lemmas about the archiver -/

theorem takeWhile_all_append {α : Type} (p : α → Bool) (x : α) (l2 : List α) :
    ∀ l1 : List α, (∀ a ∈ l1, p a = true) → p x = false →
    (l1 ++ x :: l2).takeWhile p = l1 := by
  intro l1
  induction l1 with
  | nil =>
    intro _ hx
    simp [List.takeWhile_cons, hx]
  | cons a rest ih =>
    intro hall hx
    rw [List.cons_append, List.takeWhile_cons, hall a (List.mem_cons_self a rest)]
    rw [if_pos rfl]
    rw [ih (fun b hb => hall b (List.mem_cons_of_mem a hb)) hx]

theorem basename_append (pfx f : String) (hf : ∀ c ∈ f.data, c ≠ '/') :
    basename (pfx ++ "/" ++ f) = f := by
  rw [basename]
  have hdata : (pfx ++ "/" ++ f).data = pfx.data ++ ['/'] ++ f.data := by
    rw [String.data_append, String.data_append]
  rw [hdata]
  rw [List.reverse_append, List.reverse_append]
  simp only [List.reverse_cons, List.reverse_nil, List.nil_append, List.singleton_append]
  have hall : ∀ c ∈ f.data.reverse, (c != '/') = true := by
    intro c hc
    have := hf c (List.mem_reverse.mp hc)
    simp [this]
  have hx : (('/' : Char) != '/') = false := by rfl
  rw [takeWhile_all_append (fun c => c != '/') '/' pfx.data.reverse f.data.reverse hall hx]
  rw [List.reverse_reverse]

/-- C8: when archiving is disabled the archiver is a no-op; when enabled
it creates the single archive `outputRoot/runDate/runDate.tar.gz` whose
members are exactly the entries directly under `outputRoot/runDate/`
except the archive file itself (excluded by name), each stored under an
internal path prefixed with the run date, and no original entry
disappears from the directory. -/
theorem C8_create_tarball_members (tarball : Bool) (out_dir today : String)
    (listing : List String)
    (hnoslash : ∀ f ∈ listing, ∀ c ∈ f.data, c ≠ '/') :
    (tarball = false → create_tarball tarball out_dir today listing = none) ∧
    (tarball = true → ∃ res, create_tarball tarball out_dir today listing = some res ∧
      res.tar_path = out_dir ++ "/" ++ today ++ "/" ++ (today ++ ".tar.gz") ∧
      (∀ f ∈ listing, f ≠ today ++ ".tar.gz" →
        (out_dir ++ "/" ++ today ++ "/" ++ f, today ++ "/" ++ f) ∈ res.members) ∧
      (∀ m ∈ res.members, ∃ f, f ∈ listing ∧ f ≠ today ++ ".tar.gz" ∧
        m = (out_dir ++ "/" ++ today ++ "/" ++ f, today ++ "/" ++ f)) ∧
      (∀ f ∈ listing, f ∈ res.new_listing)) := by
  constructor
  · intro h
    rw [create_tarball, if_pos h]
  · intro h
    subst h
    rw [create_tarball, if_neg (by simp)]
    refine ⟨_, rfl, rfl, ?_, ?_, ?_⟩
    · intro f hf hne
      apply List.mem_map.mpr
      refine ⟨out_dir ++ "/" ++ today ++ "/" ++ f, ?_, ?_⟩
      · apply (mem_sorted_strings _ _).mpr
        apply List.mem_map.mpr
        refine ⟨f, ?_, rfl⟩
        exact List.mem_filter.mpr ⟨hf, by simp [hne]⟩
      · rw [basename_append (out_dir ++ "/" ++ today) f (hnoslash f hf)]
    · intro m hm
      obtain ⟨g, hg, rfl⟩ := List.mem_map.mp hm
      obtain ⟨f, hf, rfl⟩ := List.mem_map.mp ((mem_sorted_strings _ _).mp hg)
      obtain ⟨hfl, hfne⟩ := List.mem_filter.mp hf
      refine ⟨f, hfl, by simpa using hfne, ?_⟩
      rw [basename_append (out_dir ++ "/" ++ today) f (hnoslash f hfl)]
    · intro f hf
      by_cases ht : (today ++ ".tar.gz") ∈ listing
      · rw [if_pos ht]
        exact hf
      · rw [if_neg ht]
        exact List.mem_append_left _ hf

/-- Witness for C8 on a concrete day's output: two resource-type
directories are archived under date-prefixed names, the archive excludes
itself, and the originals remain listed. -/
theorem C8_create_tarball_members_witness :
    (∀ f ∈ (["CodeSystem", "ValueSet"] : List String), ∀ c ∈ f.data, c ≠ '/') ∧
    (true = true → ∃ res, create_tarball true "/backup" "2026-10-12"
        ["CodeSystem", "ValueSet"] = some res ∧
      res.tar_path = "/backup" ++ "/" ++ "2026-10-12" ++ "/" ++ ("2026-10-12" ++ ".tar.gz") ∧
      (∀ f ∈ (["CodeSystem", "ValueSet"] : List String), f ≠ "2026-10-12" ++ ".tar.gz" →
        ("/backup" ++ "/" ++ "2026-10-12" ++ "/" ++ f, "2026-10-12" ++ "/" ++ f) ∈ res.members) ∧
      (∀ m ∈ res.members, ∃ f, f ∈ (["CodeSystem", "ValueSet"] : List String) ∧
        f ≠ "2026-10-12" ++ ".tar.gz" ∧
        m = ("/backup" ++ "/" ++ "2026-10-12" ++ "/" ++ f, "2026-10-12" ++ "/" ++ f)) ∧
      (∀ f ∈ (["CodeSystem", "ValueSet"] : List String), f ∈ res.new_listing)) :=
  ⟨by decide,
   (C8_create_tarball_members true "/backup" "2026-10-12"
     ["CodeSystem", "ValueSet"] (by decide)).2⟩

/-! ### Fetch-dispatch equivalence and the empty-type frame property -/

theorem download_loop_pool_eq_sequential (fetch : String → Except String Json)
    (nfkd : String → String) (today resource_type out_dir : String) :
    ∀ (rs : List BundleResponse) (fs : FS),
    (download_loop_pool fetch nfkd today resource_type out_dir rs fs).1 =
      download_loop_sequential fetch nfkd today resource_type out_dir rs fs := by
  intro rs
  induction rs with
  | nil => intro fs; rfl
  | cons r rest ih =>
    intro fs
    rw [download_loop_pool, download_loop_sequential]
    cases h : download_resource_to_file fetch nfkd today resource_type r out_dir fs with
    | error e => rfl
    | ok pair => exact ih pair.1

theorem dispatch_eq_sequential (parallel : Nat)
    (fetch : String → Except String Json) (nfkd : String → String)
    (today resource_type out_dir : String) (rs : List BundleResponse) (fs : FS) :
    (if parallel = 1 then
        download_loop_sequential fetch nfkd today resource_type out_dir rs fs
      else
        (download_loop_pool fetch nfkd today resource_type out_dir rs fs).1) =
      download_loop_sequential fetch nfkd today resource_type out_dir rs fs := by
  by_cases hp : parallel = 1
  · rw [if_pos hp]
  · rw [if_neg hp, download_loop_pool_eq_sequential]

/-- C9: the fetch phase behaves identically no matter which branch the
`parallel` setting selects: the pool-dispatch branch (whose blocking
`apply` calls run the per-descriptor downloads one at a time in
descriptor order) leaves exactly the filesystem state and error outcome
of the fully sequential branch, for every descriptor source and every
configured type list. -/
theorem C9_pool_branch_equals_sequential (server fetch : String → Except String Json)
    (nfkd : String → String) (fuel : Nat) (endpoint out_dir today : String)
    (parallel : Nat) (resource_types : List String) (fs : FS) :
    download_all_resource_types server fetch nfkd fuel endpoint out_dir today
      parallel resource_types fs =
    download_all_resource_types server fetch nfkd fuel endpoint out_dir today
      1 resource_types fs := by
  induction resource_types generalizing fs with
  | nil => rfl
  | cons t rest ih =>
    rw [download_all_resource_types, download_all_resource_types]
    cases get_resource_urls_from_server server fuel endpoint t with
    | error e => rfl
    | ok resource_list =>
      dsimp only
      by_cases hlen : resource_list.length = 0
      · rw [if_pos hlen, if_pos hlen]
        exact ih fs
      · rw [if_neg hlen, if_neg hlen,
          dispatch_eq_sequential parallel, dispatch_eq_sequential 1]
        cases (download_loop_sequential fetch nfkd today t
            (out_dir ++ "/" ++ today ++ "/" ++ t) resource_list
            (makedirs fs (out_dir ++ "/" ++ today ++ "/" ++ t))).2 with
        | none => exact ih _
        | some e => rfl

/-- C10: a resource type whose page walk yields zero descriptors leaves
the output tree untouched — no per-type directory is created and no file
is written — and processing continues with the remaining configured
types: the whole run equals the run with that type removed from the
list. -/
theorem C10_empty_type_leaves_output_untouched
    (server fetch : String → Except String Json) (nfkd : String → String)
    (fuel : Nat) (endpoint out_dir today : String) (parallel : Nat)
    (l1 l2 : List String) (t : String) (fs : FS)
    (hempty : get_resource_urls_from_server server fuel endpoint t = Except.ok []) :
    download_all_resource_types server fetch nfkd fuel endpoint out_dir today
      parallel (l1 ++ t :: l2) fs =
    download_all_resource_types server fetch nfkd fuel endpoint out_dir today
      parallel (l1 ++ l2) fs := by
  induction l1 generalizing fs with
  | nil =>
    rw [List.nil_append, List.nil_append, download_all_resource_types, hempty]
    rfl
  | cons t0 rest ih =>
    rw [List.cons_append, List.cons_append,
      download_all_resource_types, download_all_resource_types]
    cases get_resource_urls_from_server server fuel endpoint t0 with
    | error e => rfl
    | ok resource_list =>
      dsimp only
      by_cases hlen : resource_list.length = 0
      · rw [if_pos hlen, if_pos hlen]
        exact ih fs
      · rw [if_neg hlen, if_neg hlen]
        by_cases hp : parallel = 1
        · rw [if_pos hp]
          cases (download_loop_sequential fetch nfkd today t0
              (out_dir ++ "/" ++ today ++ "/" ++ t0) resource_list
              (makedirs fs (out_dir ++ "/" ++ today ++ "/" ++ t0))).2 with
          | none => exact ih _
          | some e => rfl
        · rw [if_neg hp]
          cases ((download_loop_pool fetch nfkd today t0
              (out_dir ++ "/" ++ today ++ "/" ++ t0) resource_list
              (makedirs fs (out_dir ++ "/" ++ today ++ "/" ++ t0))).1).2 with
          | none => exact ih _
          | some e => rfl

/-- Witness for C10: a server with no `ConceptMap` resources but one
`CodeSystem` and one `ValueSet` resource: running with `ConceptMap`
between the two other types equals running without it. -/
theorem C10_empty_type_leaves_output_untouched_witness :
    get_resource_urls_from_server
      (fun u => if u = "http://e/ConceptMap"
        then Except.ok (mkPage [] "")
        else Except.ok (mkPage [⟨"r1", some "R", "http://c/r1", "http://s/r1", none⟩] ""))
      2 "http://e" "ConceptMap" = Except.ok [] ∧
    download_all_resource_types
      (fun u => if u = "http://e/ConceptMap"
        then Except.ok (mkPage [] "")
        else Except.ok (mkPage [⟨"r1", some "R", "http://c/r1", "http://s/r1", none⟩] ""))
      (fun _ => Except.ok Json.null) id 2 "http://e" "/out" "2026-10-12" 1
      (["CodeSystem"] ++ "ConceptMap" :: ["ValueSet"]) ⟨[], []⟩ =
    download_all_resource_types
      (fun u => if u = "http://e/ConceptMap"
        then Except.ok (mkPage [] "")
        else Except.ok (mkPage [⟨"r1", some "R", "http://c/r1", "http://s/r1", none⟩] ""))
      (fun _ => Except.ok Json.null) id 2 "http://e" "/out" "2026-10-12" 1
      (["CodeSystem"] ++ ["ValueSet"]) ⟨[], []⟩ :=
  ⟨rfl,
   C10_empty_type_leaves_output_untouched
     (fun u => if u = "http://e/ConceptMap"
       then Except.ok (mkPage [] "")
       else Except.ok (mkPage [⟨"r1", some "R", "http://c/r1", "http://s/r1", none⟩] ""))
     (fun _ => Except.ok Json.null) id 2 "http://e" "/out" "2026-10-12" 1
     ["CodeSystem"] ["ValueSet"] "ConceptMap" ⟨[], []⟩ rfl⟩

/-- C7: for every input string (the NFKD normalisation table being an
arbitrary parameter, so in particular for inputs with non-ASCII characters
and punctuation), the slug contains only characters from `[a-z0-9_-]`,
never two adjacent hyphens (runs of whitespace/hyphen collapse to one
hyphen, and no whitespace survives), has no leading or trailing hyphen or
underscore, and the transformation is deterministic. -/
theorem C7_slugify_safe (nfkd : String → String) (value : String) :
    (∀ c ∈ (slugify nfkd value).data,
      (c.isLower || c.isDigit || c == '_' || c == '-') = true) ∧
    List.Chain' (fun a b => ¬(a = '-' ∧ b = '-')) (slugify nfkd value).data ∧
    (∀ c, (slugify nfkd value).data.head? = some c → isStripSet c = false) ∧
    (∀ c, (slugify nfkd value).data.getLast? = some c → isStripSet c = false) ∧
    slugify nfkd value = slugify nfkd value := by
  have hdata : (slugify nfkd value).data =
      stripChars isStripSet (collapseDashRuns
        ((py_lower (ascii_ignore (nfkd value))).data.filter
          (fun c => isWordChar c || pyIsSpace c || c == '-'))) := rfl
  refine ⟨?_, ?_, ?_, ?_, rfl⟩
  · intro c hc
    rw [hdata] at hc
    have hc2 := ((stripChars_interior isStripSet _).sublist).subset hc
    rcases collapse_mem _ hc2 with h1 | ⟨h2, h3⟩
    · subst h1
      rfl
    · obtain ⟨hmem, hpred⟩ := List.mem_filter.mp h2
      have hdashf : (c == '-') = false := by
        rcases hdd : c == '-' with _ | _
        · rfl
        · exfalso
          rw [isDashSpace, hdd] at h3
          simp at h3
      have hspacef : pyIsSpace c = false := by
        rcases hss : pyIsSpace c with _ | _
        · rfl
        · exfalso
          rw [isDashSpace, hss] at h3
          simp at h3
      rw [hdashf, hspacef] at hpred
      simp only [Bool.or_false] at hpred
      obtain ⟨c0, _, rfl⟩ := List.mem_map.mp hmem
      have hup := toLower_isUpper_false c0
      rw [isWordChar, Char.isAlpha, hup] at hpred
      simp only [Bool.false_or] at hpred
      rw [hpred]
      rfl
  · rw [hdata]
    exact List.Chain'.infix (collapse_chain _) (stripChars_interior isStripSet _)
  · intro c hc
    rw [hdata] at hc
    exact stripChars_head hc
  · intro c hc
    rw [hdata] at hc
    exact stripChars_last hc

end TsBackup
